import Mathlib

/-!
Shallow embedding of the StackMM Photoshop script (StackMM.jsx and its two
other versions) and proofs about its categorization, ordering, linking and
mask-editing logic.

An `ImageObject` of the script holds a `File` (identity plus base name) and
an acquisition flag; the classification booleans are derived from the
lowercased file name by substring tests.  Here an `Image` carries a file
identity surrogate `fileId`, the file name, and the acquisition flag; the
classification booleans are functions of the name, exactly as the
`ImageObject` constructor computes them.
-/

namespace StackMM

/-- An image record: `fileId` stands for the identity of the underlying
`File` object, `name` is `file.name`, and `isFirstAcquisition` is the flag
passed to the `ImageObject` constructor. -/
structure Image where
  fileId : Nat
  name : String
  isFirstAcquisition : Bool
deriving DecidableEq, Repr

/-- `leadMatch needle hay` is true when `needle` occurs at the start of
`hay` (the success case of JavaScript `indexOf` at offset 0). -/
def leadMatch : List Char → List Char → Bool
  | [], _ => true
  | _ :: _, [] => false
  | a :: as, b :: bs => a == b && leadMatch as bs

/-- `hasSub needle hay` models `hay.indexOf(needle) !== -1`: the needle
occurs somewhere in the haystack. -/
def hasSub : List Char → List Char → Bool
  | needle, [] => leadMatch needle []
  | needle, c :: t => leadMatch needle (c :: t) || hasSub needle t

/-- The character list of `s.toLowerCase()`. -/
def jsToLower (s : String) : List Char := s.data.map Char.toLower

/-- `subLower sub s` models `s.toLowerCase().indexOf(sub) !== -1` for a
lowercase literal `sub`. -/
def subLower (sub s : String) : Bool := hasSub sub.data (jsToLower s)

/-- `this.isPMap = (name.indexOf("pmap") !== -1)` of `ImageObject`. -/
def isPMap (im : Image) : Bool := subLower "pmap" im.name

/-- `this.isMask = (name.indexOf("mask") !== -1)` of `ImageObject`. -/
def isMask (im : Image) : Bool := subLower "mask" im.name

/-- `this.isAverage = (name.indexOf("average") !== -1)` of `ImageObject`. -/
def isAverage (im : Image) : Bool := subLower "average" im.name

/-- `this.isMM = !this.isPMap && !this.isMask && !this.isAverage`. -/
def isMM (im : Image) : Bool := !isPMap im && !isMask im && !isAverage im

/-- The four category arrays built by the partition loop of
`reorderImages`. -/
structure Parts where
  masks : List Image
  MMs : List Image
  pMaps : List Image
  averages : List Image
deriving DecidableEq, Repr

/-- The partition loop of `reorderImages` in `StackMM.jsx`:
`if (im.isMask) masks.push(im); else if (im.isPMap) pMaps.push(im);
else if (im.isAverage) averages.push(im); else if (im.isMM) MMs.push(im);`.
The final branch is guarded exactly as in the source, so an image matching
none of the guards would be dropped. -/
def separate : List Image → Parts
  | [] => ⟨[], [], [], []⟩
  | im :: rest =>
    let p := separate rest
    if isMask im then { p with masks := im :: p.masks }
    else if isPMap im then { p with pMaps := im :: p.pMaps }
    else if isAverage im then { p with averages := im :: p.averages }
    else if isMM im then { p with MMs := im :: p.MMs }
    else p

/-- Model of `a.localeCompare(b)`: negative, zero or positive according to
the string order. -/
def localeCompare (s t : String) : Int :=
  if s < t then -1 else if s = t then 0 else 1

/-- The `acquisitionSort` comparator of `StackMM.jsx`: images from the same
acquisition compare by file name, otherwise the first acquisition comes
first. -/
def acquisitionSort (a b : Image) : Int :=
  if a.isFirstAcquisition == b.isFirstAcquisition then
    localeCompare a.name b.name
  else if a.isFirstAcquisition then -1 else 1

/-- The "a may come before b" relation induced by the comparator, i.e.
`acquisitionSort a b <= 0`; this is the order a comparator sort
establishes. -/
def acqLe (a b : Image) : Bool := decide (acquisitionSort a b ≤ 0)

/-- The object returned by `reorderImages`: the concatenated `ordered`
array together with the four sorted category arrays. -/
structure OrderResult where
  ordered : List Image
  masks : List Image
  MMs : List Image
  pMaps : List Image
  averages : List Image
deriving DecidableEq, Repr

/-- `reorderImages` of `StackMM.jsx`: partition, sort each category with
`acquisitionSort`, and concatenate as averages, pMaps, MMs, masks. -/
def reorderImages (images : List Image) : OrderResult :=
  let p := separate images
  let masks := p.masks.mergeSort acqLe
  let MMs := p.MMs.mergeSort acqLe
  let pMaps := p.pMaps.mergeSort acqLe
  let averages := p.averages.mergeSort acqLe
  { ordered := averages ++ pMaps ++ MMs ++ masks
    masks := masks
    MMs := MMs
    pMaps := pMaps
    averages := averages }

/-! ### The v1.0 script (first source version)

The first version of the script performs the same partition, sort and
concatenation inline at top level; its `ImageObject` computes the same
booleans (named `ispMap` there).  Each definition below is translated from
that version's own text. -/

/-- `this.ispMap` of the v1.0 `ImageObject`. -/
def ispMapV10 (im : Image) : Bool := subLower "pmap" im.name

/-- `this.isMask` of the v1.0 `ImageObject`. -/
def isMaskV10 (im : Image) : Bool := subLower "mask" im.name

/-- `this.isAverage` of the v1.0 `ImageObject`. -/
def isAverageV10 (im : Image) : Bool := subLower "average" im.name

/-- `this.isMM = !this.ispMap && !this.isMask && !this.isAverage` (v1.0). -/
def isMMV10 (im : Image) : Bool := !ispMapV10 im && !isMaskV10 im && !isAverageV10 im

/-- The inline partition loop of the v1.0 script. -/
def separateV10 : List Image → Parts
  | [] => ⟨[], [], [], []⟩
  | im :: rest =>
    let p := separateV10 rest
    if isMaskV10 im then { p with masks := im :: p.masks }
    else if ispMapV10 im then { p with pMaps := im :: p.pMaps }
    else if isAverageV10 im then { p with averages := im :: p.averages }
    else if isMMV10 im then { p with MMs := im :: p.MMs }
    else p

/-- The named `acquisitionSort` function of the v1.0 script. -/
def acquisitionSortV10 (a b : Image) : Int :=
  if a.isFirstAcquisition == b.isFirstAcquisition then
    localeCompare a.name b.name
  else if a.isFirstAcquisition then -1 else 1

/-- The comparator order of the v1.0 script. -/
def acqLeV10 (a b : Image) : Bool := decide (acquisitionSortV10 a b ≤ 0)

/-- The inline partition/sort/concatenation of the v1.0 script, collected
into the same result shape: after `images = averages.concat(pMaps, MMs,
masks)` the variables `masks`, `MMs`, `pMaps`, `averages` hold the sorted
category arrays and `images` holds the concatenation. -/
def orderImagesV10 (images : List Image) : OrderResult :=
  let p := separateV10 images
  let masks := p.masks.mergeSort acqLeV10
  let MMs := p.MMs.mergeSort acqLeV10
  let pMaps := p.pMaps.mergeSort acqLeV10
  let averages := p.averages.mergeSort acqLeV10
  { ordered := averages ++ pMaps ++ MMs ++ masks
    masks := masks
    MMs := MMs
    pMaps := pMaps
    averages := averages }

/-! ### The latest script version (`orderImages`) -/

/-- `this.isPMap` of the latest version's `ImageObject`. -/
def isPMapV2 (im : Image) : Bool := subLower "pmap" im.name

/-- `this.isMask` of the latest version's `ImageObject`. -/
def isMaskV2 (im : Image) : Bool := subLower "mask" im.name

/-- `this.isAverage` of the latest version's `ImageObject`. -/
def isAverageV2 (im : Image) : Bool := subLower "average" im.name

/-- `this.isMM` of the latest version's `ImageObject`. -/
def isMMV2 (im : Image) : Bool := !isPMapV2 im && !isMaskV2 im && !isAverageV2 im

/-- The partition loop of `orderImages` in the latest version. -/
def separateV2 : List Image → Parts
  | [] => ⟨[], [], [], []⟩
  | im :: rest =>
    let p := separateV2 rest
    if isMaskV2 im then { p with masks := im :: p.masks }
    else if isPMapV2 im then { p with pMaps := im :: p.pMaps }
    else if isAverageV2 im then { p with averages := im :: p.averages }
    else if isMMV2 im then { p with MMs := im :: p.MMs }
    else p

/-- The `acquisitionSort` closure of `orderImages` in the latest version. -/
def acquisitionSortV2 (a b : Image) : Int :=
  if a.isFirstAcquisition == b.isFirstAcquisition then
    localeCompare a.name b.name
  else if a.isFirstAcquisition then -1 else 1

/-- The comparator order of the latest version. -/
def acqLeV2 (a b : Image) : Bool := decide (acquisitionSortV2 a b ≤ 0)

/-- `orderImages` of the latest script version. -/
def orderImages (images : List Image) : OrderResult :=
  let p := separateV2 images
  let masks := p.masks.mergeSort acqLeV2
  let MMs := p.MMs.mergeSort acqLeV2
  let pMaps := p.pMaps.mergeSort acqLeV2
  let averages := p.averages.mergeSort acqLeV2
  { ordered := averages ++ pMaps ++ MMs ++ masks
    masks := masks
    MMs := MMs
    pMaps := pMaps
    averages := averages }

/-! ### Linking acquisitions

`linkAcquisitions` walks the ordered image list keeping the first layer
seen for each acquisition; every later image of the same acquisition is
linked to that first layer.  A link call `anchor.link(images[i].layer)` is
recorded as the pair `(anchor, images[i])`; layers are in bijection with
images via `images[i].layer`. -/

/-- The loop body of `linkAcquisitions`, with the two accumulator variables
`firstAcquisitionLayer1` and `secondAcquisitionLayer1` made explicit. -/
def linkAux : Option Image → Option Image → List Image → List (Image × Image)
  | _, _, [] => []
  | fa, sa, x :: rest =>
    if x.isFirstAcquisition then
      match fa with
      | none => linkAux (some x) sa rest
      | some a => (a, x) :: linkAux (some a) sa rest
    else
      match sa with
      | none => linkAux fa (some x) rest
      | some b => (b, x) :: linkAux fa (some b) rest

/-- The sequence of `link` calls performed by `linkAcquisitions`. -/
def linkAcquisitions (images : List Image) : List (Image × Image) :=
  linkAux none none images

/-! ### Grouping pMaps -/

/-- The `bottomMM` scan of `groupPMaps`: the first image in the ordered
list whose `isMM` flag is set (the loop breaks at the first hit). -/
def bottomMM (images : List Image) : Option Image := images.find? (fun im => isMM im)

/-- In `StackMM.jsx`, `groupPMaps` always executes
`pMapsGroup.move(bottomMM, ElementPlacement.PLACEAFTER)`; this is the
target of that unconditional call, `none` standing for a null target. -/
def groupPMapsMoveTarget (images : List Image) : Option Image := bottomMM images

/-- In the latest version the move is guarded by `if (bottomMM)`; this is
the list of move calls actually performed (at most one). -/
def groupPMapsMovesV2 (images : List Image) : List Image :=
  match bottomMM images with
  | some m => [m]
  | none => []

/-! ### Layer visibility and mask editing

For claim C10 only layer visibility (and the invert flag) matter; the
pixel-level selection and deletion are host actions with no effect on the
visibility flags.  A document is its list of top-level layers. -/

/-- A top-level layer: identity, visibility flag, and an inversion flag
recording applications of `layer.invert()`. -/
structure Layer where
  id : Nat
  visible : Bool
  inverted : Bool
deriving DecidableEq, Repr

/-- `deleteBlackPixelsFromLayer` in `StackMM.jsx`: make the target layer
visible, hide every other layer, perform the (visibility-preserving)
selection and deletion, then set every layer visible. -/
def deleteBlackPixelsFromLayer (doc : List Layer) (target : Nat) : List Layer :=
  let d1 := doc.map fun l => if l.id == target then { l with visible := true } else l
  let d2 := d1.map fun l => if l.id == target then l else { l with visible := false }
  d2.map fun l => { l with visible := true }

/-- `layer.invert()` on the layer with the given id: flips its inversion
flag and leaves visibility untouched. -/
def invertLayer (doc : List Layer) (target : Nat) : List Layer :=
  doc.map fun l => if l.id == target then { l with inverted := !l.inverted } else l

/-- `editMasks`: for each mask layer in order, delete its black pixels and
invert it. -/
def editMasks (doc : List Layer) (masks : List Nat) : List Layer :=
  match masks with
  | [] => doc
  | m :: rest => editMasks (invertLayer (deleteBlackPixelsFromLayer doc m) m) rest

/-! ### The file-selection dialog of the latest version

The latest version's `collectImages` shows a modal dialog with Add Files,
Remove, Cancel Script and Done buttons and returns `cancelled ? null :
images`.  A dialog session is the sequence of user interactions; the
dialog stays open until Cancel Script, or Done with a non-empty file
list. -/

/-- A file offered by the OS open dialog: identity surrogate and name. -/
structure FileRef where
  id : Nat
  name : String
deriving DecidableEq, Repr

/-- One user interaction with the dialog.  `addFiles none` is an OS open
dialog dismissed without files; `removeClick none` is a Remove click with
nothing selected. -/
inductive DlgEvent where
  | addFiles : Option (List FileRef) → DlgEvent
  | removeClick : Option Nat → DlgEvent
  | cancelClick : DlgEvent
  | doneClick : DlgEvent
deriving DecidableEq, Repr

/-- `isImage` of the latest version: the lowercased name has one of the
five image extensions after its last dot. -/
def extFrom : List Char → Option (List Char)
  | [] => none
  | c :: t =>
    match extFrom t with
    | some e => some e
    | none => if c == '.' then some (c :: t) else none

/-- `isImage(filename)`: extension test on the lowercased name. -/
def isImage (filename : String) : Bool :=
  match extFrom (jsToLower filename) with
  | none => false
  | some ext =>
    [".jpg", ".jpeg", ".png", ".tif", ".tiff"].any (fun v => v.data == ext)

/-- `new ImageObject(files[i], isFirst)`. -/
def mkImage (isFirst : Bool) (f : FileRef) : Image := ⟨f.id, f.name, isFirst⟩

/-- The dialog event loop of the latest version's `collectImages`, with
the `images` accumulator explicit.  The result is `none` while the dialog
was never closed; `some none` is a `null` return (Cancel Script); `some
(some imgs)` is a normal return. -/
def runDialog (isFirst : Bool) : List DlgEvent → List Image → Option (Option (List Image))
  | [], _ => none
  | DlgEvent.addFiles none :: es, imgs => runDialog isFirst es imgs
  | DlgEvent.addFiles (some files) :: es, imgs =>
      runDialog isFirst es
        (imgs ++ (files.filter (fun f => isImage f.name)).map (mkImage isFirst))
  | DlgEvent.removeClick none :: es, imgs => runDialog isFirst es imgs
  | DlgEvent.removeClick (some i) :: es, imgs => runDialog isFirst es (imgs.eraseIdx i)
  | DlgEvent.cancelClick :: _, _ => some none
  | DlgEvent.doneClick :: es, imgs =>
      if imgs.isEmpty then runDialog isFirst es imgs else some (some imgs)

/-- `collectImages(isFirst)` of the latest version, as a function of the
user's dialog interactions. -/
def collectImages (isFirst : Bool) (evs : List DlgEvent) : Option (Option (List Image)) :=
  runDialog isFirst evs []

/-! ### The main entry point of the latest version

`main` is a straight-line orchestration; its effect on the host is the
sequence of host-API calls it performs.  `mainEffects` records that
sequence as a function of the two `collectImages` results. -/

/-- One host-API effect performed by `main`. -/
inductive HostEffect where
  | alertCancelled
  | alertMissing : List String → HostEffect
  | openDoc : Image → HostEffect
  | addLayer : Image → HostEffect
  | groupPMapsSet : HostEffect
  | movePMapsGroup : Option Image → HostEffect
  | link : Image → Image → HostEffect
  | editMask : Image → HostEffect
  | flipCanvas : HostEffect
  | hostError : HostEffect
deriving DecidableEq, Repr

/-- The category-presence scan of the latest version's `main`, in the key
insertion order masks, MMs, pMaps, average images. -/
def missingCategories (p : OrderResult) : List String :=
  (if p.masks.isEmpty then ["masks"] else []) ++
  (if p.MMs.isEmpty then ["MMs"] else []) ++
  (if p.pMaps.isEmpty then ["pMaps"] else []) ++
  (if p.averages.isEmpty then ["average images"] else [])

/-- The host effects of the document-building phase of `main` (after both
acquisitions were collected): a warning for missing categories, then
`configureDoc`, `addLayers`, `groupPMaps`, `linkAcquisitions`, `editMasks`
and the canvas flip.  Opening the first image of an empty list is a host
error. -/
def buildEffects (p : OrderResult) : List HostEffect :=
  (if (missingCategories p).isEmpty then [] else [HostEffect.alertMissing (missingCategories p)]) ++
  (match p.ordered with
   | [] => [HostEffect.hostError]
   | im0 :: rest =>
     HostEffect.openDoc im0 :: rest.map HostEffect.addLayer
       ++ [HostEffect.groupPMapsSet]
       ++ (match bottomMM p.ordered with
           | some m => [HostEffect.movePMapsGroup (some m)]
           | none => [])
       ++ (linkAcquisitions p.ordered).map (fun q => HostEffect.link q.1 q.2)
       ++ p.masks.map HostEffect.editMask
       ++ [HostEffect.flipCanvas])

/-- The effect sequence of the latest version's `main`, given the results
of the two `collectImages` calls: a `null` from either acquisition aborts
with only an alert, before any document exists. -/
def mainEffects (first second : Option (List Image)) : List HostEffect :=
  match first with
  | none => [HostEffect.alertCancelled]
  | some f =>
    match second with
    | none => [HostEffect.alertCancelled]
    | some s => buildEffects (orderImages (f ++ s))

/-! ### Comparator lemmas -/

lemma localeCompare_le_iff (s t : String) : localeCompare s t ≤ 0 ↔ s ≤ t := by
  unfold localeCompare
  by_cases hlt : s < t
  · simp [hlt, le_of_lt hlt]
  · by_cases heq : s = t
    · simp [heq]
    · have hns : ¬ s ≤ t := fun hle => heq (le_antisymm hle (le_of_not_lt hlt))
      simp [hlt, heq, hns]

lemma acqLe_iff (a b : Image) :
    acqLe a b = true ↔
      ((a.isFirstAcquisition = b.isFirstAcquisition ∧ a.name ≤ b.name) ∨
       (a.isFirstAcquisition = true ∧ b.isFirstAcquisition = false)) := by
  cases ha : a.isFirstAcquisition <;> cases hb : b.isFirstAcquisition <;>
    simp [acqLe, acquisitionSort, ha, hb, localeCompare_le_iff]

lemma acqLe_trans : ∀ a b c : Image, acqLe a b → acqLe b c → acqLe a c := by
  intro a b c hab hbc
  rw [acqLe_iff] at hab hbc ⊢
  rcases hab with ⟨hf₁, hn₁⟩ | ⟨ha₁, hb₁⟩ <;>
    rcases hbc with ⟨hf₂, hn₂⟩ | ⟨hb₂, hc₂⟩
  · exact Or.inl ⟨hf₁.trans hf₂, le_trans hn₁ hn₂⟩
  · exact Or.inr ⟨hf₁.trans hb₂, hc₂⟩
  · exact Or.inr ⟨ha₁, hf₂ ▸ hb₁⟩
  · exact absurd (hb₁.symm.trans hb₂) (by simp)

lemma acqLe_total : ∀ a b : Image, acqLe a b || acqLe b a := by
  intro a b
  rw [Bool.or_eq_true, acqLe_iff, acqLe_iff]
  cases ha : a.isFirstAcquisition <;> cases hb : b.isFirstAcquisition <;> simp
  · exact le_total _ _
  · exact le_total _ _

/-- A tie under the comparator: same acquisition flag and equal name. -/
lemma acqLe_of_tie {a b : Image} (hf : a.isFirstAcquisition = b.isFirstAcquisition)
    (hn : a.name = b.name) : acqLe a b = true :=
  (acqLe_iff a b).2 (Or.inl ⟨hf, le_of_eq hn⟩)

/-! ### Partition lemmas -/

/-- The classification booleans depend only on the file name. -/
lemma isMask_congr {a b : Image} (h : a.name = b.name) : isMask a = isMask b := by
  simp [isMask, h]

lemma isPMap_congr {a b : Image} (h : a.name = b.name) : isPMap a = isPMap b := by
  simp [isPMap, h]

lemma isAverage_congr {a b : Image} (h : a.name = b.name) : isAverage a = isAverage b := by
  simp [isAverage, h]

lemma separate_nil : separate [] = ⟨[], [], [], []⟩ := rfl

lemma separate_cons (im : Image) (t : List Image) :
    separate (im :: t) =
      if isMask im then { separate t with masks := im :: (separate t).masks }
      else if isPMap im then { separate t with pMaps := im :: (separate t).pMaps }
      else if isAverage im then { separate t with averages := im :: (separate t).averages }
      else if isMM im then { separate t with MMs := im :: (separate t).MMs }
      else separate t := by
  simp [separate]

lemma separate_masks (l : List Image) :
    (separate l).masks = l.filter (fun im => isMask im) := by
  induction l with
  | nil => rfl
  | cons im t ih =>
    rw [separate_cons, List.filter_cons]
    by_cases h1 : isMask im
    · simp [h1, ih]
    · by_cases h2 : isPMap im
      · simp [h1, h2, ih]
      · by_cases h3 : isAverage im
        · simp [h1, h2, h3, ih]
        · simp [h1, h2, h3, isMM, ih]

lemma separate_pMaps (l : List Image) :
    (separate l).pMaps = l.filter (fun im => !isMask im && isPMap im) := by
  induction l with
  | nil => rfl
  | cons im t ih =>
    rw [separate_cons, List.filter_cons]
    by_cases h1 : isMask im
    · simp [h1, ih]
    · by_cases h2 : isPMap im
      · simp [h1, h2, ih]
      · by_cases h3 : isAverage im
        · simp [h1, h2, h3, ih]
        · simp [h1, h2, h3, isMM, ih]

lemma separate_averages (l : List Image) :
    (separate l).averages = l.filter (fun im => !isMask im && !isPMap im && isAverage im) := by
  induction l with
  | nil => rfl
  | cons im t ih =>
    rw [separate_cons, List.filter_cons]
    by_cases h1 : isMask im
    · simp [h1, ih]
    · by_cases h2 : isPMap im
      · simp [h1, h2, ih]
      · by_cases h3 : isAverage im
        · simp [h1, h2, h3, ih]
        · simp [h1, h2, h3, isMM, ih]

lemma separate_MMs (l : List Image) :
    (separate l).MMs = l.filter (fun im => isMM im) := by
  induction l with
  | nil => rfl
  | cons im t ih =>
    rw [separate_cons, List.filter_cons]
    by_cases h1 : isMask im
    · simp [h1, ih, isMM]
    · by_cases h2 : isPMap im
      · simp [h1, h2, ih, isMM]
      · by_cases h3 : isAverage im
        · simp [h1, h2, h3, ih, isMM]
        · simp [h1, h2, h3, isMM, ih]

/-! ### The fields of `reorderImages` -/

lemma reorderImages_masks (l : List Image) :
    (reorderImages l).masks = ((separate l).masks).mergeSort acqLe := rfl

lemma reorderImages_MMs (l : List Image) :
    (reorderImages l).MMs = ((separate l).MMs).mergeSort acqLe := rfl

lemma reorderImages_pMaps (l : List Image) :
    (reorderImages l).pMaps = ((separate l).pMaps).mergeSort acqLe := rfl

lemma reorderImages_averages (l : List Image) :
    (reorderImages l).averages = ((separate l).averages).mergeSort acqLe := rfl

lemma reorderImages_ordered (l : List Image) :
    (reorderImages l).ordered =
      (reorderImages l).averages ++ (reorderImages l).pMaps ++
        (reorderImages l).MMs ++ (reorderImages l).masks := rfl

/-! ### The partition is a permutation of the input -/

lemma separate_append_perm (l : List Image) :
    ((separate l).averages ++ (separate l).pMaps ++ (separate l).MMs ++
      (separate l).masks).Perm l := by
  induction l with
  | nil => simp [separate_nil]
  | cons im t ih =>
    rcases hs : separate t with ⟨K, M, P, A⟩
    rw [hs] at ih
    rw [separate_cons, hs]
    dsimp only at ih
    by_cases h1 : isMask im
    · rw [if_pos h1]
      dsimp only
      exact List.perm_middle.trans (List.Perm.cons im ih)
    · rw [if_neg h1]
      by_cases h2 : isPMap im
      · rw [if_pos h2]
        dsimp only
        rw [show ((A ++ (im :: P)) ++ M) ++ K = A ++ (im :: (P ++ (M ++ K))) from by
          simp [List.append_assoc]]
        exact List.perm_middle.trans
          (List.Perm.cons im (by simpa [List.append_assoc] using ih))
      · rw [if_neg h2]
        by_cases h3 : isAverage im
        · rw [if_pos h3]
          dsimp only
          rw [show (((im :: A) ++ P) ++ M) ++ K = im :: (((A ++ P) ++ M) ++ K) from by
            simp]
          exact List.Perm.cons im ih
        · rw [if_neg h3]
          rw [if_pos (show isMM im from by simp [isMM, h1, h2, h3])]
          dsimp only
          rw [show ((A ++ P) ++ (im :: M)) ++ K = (A ++ P) ++ (im :: (M ++ K)) from by
            simp [List.append_assoc]]
          exact List.perm_middle.trans
            (List.Perm.cons im (by simpa [List.append_assoc] using ih))

lemma reorderImages_ordered_perm (l : List Image) : (reorderImages l).ordered.Perm l := by
  rw [reorderImages_ordered, reorderImages_masks, reorderImages_MMs,
    reorderImages_pMaps, reorderImages_averages]
  exact ((((List.mergeSort_perm _ _).append (List.mergeSort_perm _ _)).append
    (List.mergeSort_perm _ _)).append (List.mergeSort_perm _ _)).trans
    (separate_append_perm l)

/-! ### The three versions compute the same function -/

lemma ispMapV10_eq : ispMapV10 = isPMap := rfl
lemma isMaskV10_eq : isMaskV10 = isMask := rfl
lemma isAverageV10_eq : isAverageV10 = isAverage := rfl
lemma isMMV10_eq : isMMV10 = isMM := rfl
lemma acqLeV10_eq : acqLeV10 = acqLe := rfl

lemma isPMapV2_eq : isPMapV2 = isPMap := rfl
lemma isMaskV2_eq : isMaskV2 = isMask := rfl
lemma isAverageV2_eq : isAverageV2 = isAverage := rfl
lemma isMMV2_eq : isMMV2 = isMM := rfl
lemma acqLeV2_eq : acqLeV2 = acqLe := rfl

lemma separateV10_eq (l : List Image) : separateV10 l = separate l := by
  induction l with
  | nil => rfl
  | cons im t ih =>
    simp [separateV10, separate, ih, ispMapV10_eq, isMaskV10_eq, isAverageV10_eq,
      isMMV10_eq]

lemma separateV2_eq (l : List Image) : separateV2 l = separate l := by
  induction l with
  | nil => rfl
  | cons im t ih =>
    simp [separateV2, separate, ih, isPMapV2_eq, isMaskV2_eq, isAverageV2_eq,
      isMMV2_eq]

lemma orderImagesV10_eq (l : List Image) : orderImagesV10 l = reorderImages l := by
  simp [orderImagesV10, reorderImages, separateV10_eq, acqLeV10_eq]

lemma orderImages_eq (l : List Image) : orderImages l = reorderImages l := by
  simp [orderImages, reorderImages, separateV2_eq, acqLeV2_eq]

/-! ### Claims C1, C3, C4, C5 -/

/-- Claim C1: classification assigns exactly one of the four categories by
case-insensitive substring match on the file name, with the priority order
mask, then pMap, then average, and MM exactly when the lowercased name
contains none of the three substrings.  Stated as membership in the
category arrays returned by `reorderImages`. -/
theorem claim_C1 (l : List Image) (im : Image) (hmem : im ∈ l) :
    (im ∈ (reorderImages l).masks ↔ subLower "mask" im.name = true) ∧
    (im ∈ (reorderImages l).pMaps ↔
      (subLower "pmap" im.name = true ∧ subLower "mask" im.name = false)) ∧
    (im ∈ (reorderImages l).averages ↔
      (subLower "average" im.name = true ∧ subLower "mask" im.name = false ∧
        subLower "pmap" im.name = false)) ∧
    (im ∈ (reorderImages l).MMs ↔
      (subLower "mask" im.name = false ∧ subLower "pmap" im.name = false ∧
        subLower "average" im.name = false)) := by
  rw [reorderImages_masks, reorderImages_pMaps, reorderImages_averages, reorderImages_MMs]
  simp only [List.mem_mergeSort, separate_masks, separate_pMaps, separate_averages,
    separate_MMs, List.mem_filter, hmem, true_and, Bool.and_eq_true,
    Bool.not_eq_true']
  refine ⟨Iff.rfl, ?_, ?_, ?_⟩
  · unfold isMask isPMap
    tauto
  · unfold isMask isPMap isAverage
    tauto
  · unfold isMM isMask isPMap isAverage
    simp only [Bool.and_eq_true, Bool.not_eq_true']
    tauto

/-- Witness for claim C1 at a concrete image whose mixed-case name
contains "mask". -/
theorem claim_C1_witness :
    ((Image.mk 0 "A_Mask.tif" true) ∈
        (reorderImages [Image.mk 0 "A_Mask.tif" true]).masks ↔
      subLower "mask" (Image.mk 0 "A_Mask.tif" true).name = true) ∧
    ((Image.mk 0 "A_Mask.tif" true) ∈
        (reorderImages [Image.mk 0 "A_Mask.tif" true]).pMaps ↔
      (subLower "pmap" (Image.mk 0 "A_Mask.tif" true).name = true ∧
        subLower "mask" (Image.mk 0 "A_Mask.tif" true).name = false)) ∧
    ((Image.mk 0 "A_Mask.tif" true) ∈
        (reorderImages [Image.mk 0 "A_Mask.tif" true]).averages ↔
      (subLower "average" (Image.mk 0 "A_Mask.tif" true).name = true ∧
        subLower "mask" (Image.mk 0 "A_Mask.tif" true).name = false ∧
        subLower "pmap" (Image.mk 0 "A_Mask.tif" true).name = false)) ∧
    ((Image.mk 0 "A_Mask.tif" true) ∈
        (reorderImages [Image.mk 0 "A_Mask.tif" true]).MMs ↔
      (subLower "mask" (Image.mk 0 "A_Mask.tif" true).name = false ∧
        subLower "pmap" (Image.mk 0 "A_Mask.tif" true).name = false ∧
        subLower "average" (Image.mk 0 "A_Mask.tif" true).name = false)) :=
  claim_C1 [Image.mk 0 "A_Mask.tif" true] (Image.mk 0 "A_Mask.tif" true) (by decide)

/-- Claim C3: the `ordered` array equals the concatenation of the four
sorted category arrays in the fixed order averages, pMaps, MMs, masks, in
both `reorderImages` and `orderImages`. -/
theorem claim_C3 (l : List Image) :
    (reorderImages l).ordered =
      (reorderImages l).averages ++ (reorderImages l).pMaps ++
        (reorderImages l).MMs ++ (reorderImages l).masks ∧
    (orderImages l).ordered =
      (orderImages l).averages ++ (orderImages l).pMaps ++
        (orderImages l).MMs ++ (orderImages l).masks :=
  ⟨rfl, rfl⟩

/-- Claim C4: the `ordered` array returned by `reorderImages` (and by
`orderImages`) is a permutation of the input list: no image is dropped or
duplicated. -/
theorem claim_C4 (l : List Image) :
    (reorderImages l).ordered.Perm l ∧ (orderImages l).ordered.Perm l := by
  refine ⟨reorderImages_ordered_perm l, ?_⟩
  rw [orderImages_eq]
  exact reorderImages_ordered_perm l

/-- Claim C5: the inline partition/sort/concatenation of the v1.0 script,
`reorderImages` of `StackMM.jsx`, and `orderImages` of the latest version
compute identical results on every input: same `ordered` sequence and the
same four category arrays. -/
theorem claim_C5 (l : List Image) :
    orderImagesV10 l = reorderImages l ∧ orderImages l = reorderImages l :=
  ⟨orderImagesV10_eq l, orderImages_eq l⟩

/-! ### Claim C2: sortedness and stability of the category arrays -/

/-- The order claimed for adjacent images of a sorted category array:
first acquisition strictly before second, or same acquisition and names in
order. -/
def acqOrdered (a b : Image) : Prop :=
  (a.isFirstAcquisition = true ∧ b.isFirstAcquisition = false) ∨
  (a.isFirstAcquisition = b.isFirstAcquisition ∧ a.name ≤ b.name)

lemma acqLe_imp_acqOrdered {a b : Image} (h : acqLe a b = true) : acqOrdered a b := by
  rcases (acqLe_iff a b).1 h with ⟨hf, hn⟩ | ⟨ha, hb⟩
  · exact Or.inr ⟨hf, hn⟩
  · exact Or.inl ⟨ha, hb⟩

lemma chain_of_sorted (m : List Image) : List.Chain' acqOrdered (m.mergeSort acqLe) :=
  ((List.sorted_mergeSort acqLe_trans acqLe_total m).imp
    (fun h => acqLe_imp_acqOrdered h)).chain'

/-- Claim C2: every category array returned by `reorderImages` is ordered
by acquisition first and then by name, and the sort is stable: two images
with equal acquisition flag and equal file name keep their relative order
from the input, inside the category array that contains them. -/
theorem claim_C2 (l : List Image) :
    (List.Chain' acqOrdered (reorderImages l).masks ∧
     List.Chain' acqOrdered (reorderImages l).MMs ∧
     List.Chain' acqOrdered (reorderImages l).pMaps ∧
     List.Chain' acqOrdered (reorderImages l).averages) ∧
    (∀ a b : Image, List.Sublist [a, b] l →
      a.isFirstAcquisition = b.isFirstAcquisition → a.name = b.name →
      (List.Sublist [a, b] (reorderImages l).masks ∨
       List.Sublist [a, b] (reorderImages l).MMs ∨
       List.Sublist [a, b] (reorderImages l).pMaps ∨
       List.Sublist [a, b] (reorderImages l).averages)) := by
  constructor
  · rw [reorderImages_masks, reorderImages_MMs, reorderImages_pMaps,
      reorderImages_averages]
    exact ⟨chain_of_sorted _, chain_of_sorted _, chain_of_sorted _, chain_of_sorted _⟩
  · intro a b hsub hflag hname
    have hle : acqLe a b = true := acqLe_of_tie hflag hname
    have hmk := isMask_congr hname
    have hpm := isPMap_congr hname
    have hav := isAverage_congr hname
    by_cases h1 : isMask a = true
    · left
      rw [reorderImages_masks, separate_masks]
      refine List.pair_sublist_mergeSort acqLe_trans acqLe_total hle ?_
      have hf := hsub.filter (fun im => isMask im)
      rwa [show List.filter (fun im => isMask im) [a, b] = [a, b] from by
        simp [h1, hmk ▸ h1]] at hf
    · have h1a : isMask a = false := by simpa using h1
      have h1b : isMask b = false := hmk ▸ h1a
      by_cases h2 : isPMap a = true
      · right; right; left
        rw [reorderImages_pMaps, separate_pMaps]
        refine List.pair_sublist_mergeSort acqLe_trans acqLe_total hle ?_
        have hf := hsub.filter (fun im => !isMask im && isPMap im)
        rwa [show List.filter (fun im => !isMask im && isPMap im) [a, b] = [a, b] from by
          simp [h1a, h1b, h2, hpm ▸ h2]] at hf
      · have h2a : isPMap a = false := by simpa using h2
        have h2b : isPMap b = false := hpm ▸ h2a
        by_cases h3 : isAverage a = true
        · right; right; right
          rw [reorderImages_averages, separate_averages]
          refine List.pair_sublist_mergeSort acqLe_trans acqLe_total hle ?_
          have hf := hsub.filter (fun im => !isMask im && !isPMap im && isAverage im)
          rwa [show List.filter (fun im => !isMask im && !isPMap im && isAverage im)
              [a, b] = [a, b] from by
            simp [h1a, h1b, h2a, h2b, h3, hav ▸ h3]] at hf
        · have h3a : isAverage a = false := by simpa using h3
          have h3b : isAverage b = false := hav ▸ h3a
          right; left
          rw [reorderImages_MMs, separate_MMs]
          refine List.pair_sublist_mergeSort acqLe_trans acqLe_total hle ?_
          have hf := hsub.filter (fun im => isMM im)
          rwa [show List.filter (fun im => isMM im) [a, b] = [a, b] from by
            simp [isMM, h1a, h1b, h2a, h2b, h3a, h3b]] at hf

/-- Witness for claim C2: two distinct files with the same name and the
same acquisition flag keep their input order inside the MM array. -/
theorem claim_C2_witness :
    List.Sublist [Image.mk 0 "mm.tif" true, Image.mk 1 "mm.tif" true]
        (reorderImages [Image.mk 0 "mm.tif" true, Image.mk 1 "mm.tif" true]).masks ∨
    List.Sublist [Image.mk 0 "mm.tif" true, Image.mk 1 "mm.tif" true]
        (reorderImages [Image.mk 0 "mm.tif" true, Image.mk 1 "mm.tif" true]).MMs ∨
    List.Sublist [Image.mk 0 "mm.tif" true, Image.mk 1 "mm.tif" true]
        (reorderImages [Image.mk 0 "mm.tif" true, Image.mk 1 "mm.tif" true]).pMaps ∨
    List.Sublist [Image.mk 0 "mm.tif" true, Image.mk 1 "mm.tif" true]
        (reorderImages [Image.mk 0 "mm.tif" true, Image.mk 1 "mm.tif" true]).averages :=
  (claim_C2 [Image.mk 0 "mm.tif" true, Image.mk 1 "mm.tif" true]).2
    (Image.mk 0 "mm.tif" true) (Image.mk 1 "mm.tif" true) (by decide) rfl rfl

/-! ### Claim C7: linking stays within an acquisition -/

lemma linkAux_cross : ∀ (l : List Image) (fa sa : Option Image),
    (∀ a, fa = some a → a.isFirstAcquisition = true) →
    (∀ b, sa = some b → b.isFirstAcquisition = false) →
    ∀ p ∈ linkAux fa sa l, p.1.isFirstAcquisition = p.2.isFirstAcquisition := by
  intro l
  induction l with
  | nil => intro fa sa _ _ p hp; simp [linkAux] at hp
  | cons x t ih =>
    intro fa sa hfa hsa p hp
    by_cases hx : x.isFirstAcquisition = true
    · cases fa with
      | none =>
        simp only [linkAux, hx, if_true] at hp
        exact ih (some x) sa (fun a ha => by cases ha; exact hx) hsa p hp
      | some a =>
        simp only [linkAux, hx, if_true] at hp
        rcases List.mem_cons.1 hp with hpe | hpm
        · subst hpe
          rw [hfa a rfl, hx]
        · exact ih (some a) sa hfa hsa p hpm
    · have hx' : x.isFirstAcquisition = false := by simpa using hx
      cases sa with
      | none =>
        simp only [linkAux, hx', Bool.false_eq_true, if_false] at hp
        exact ih fa (some x) hfa (fun b hb => by cases hb; exact hx') p hp
      | some b =>
        simp only [linkAux, hx', Bool.false_eq_true, if_false] at hp
        rcases List.mem_cons.1 hp with hpe | hpm
        · subst hpe
          rw [hsa b rfl, hx']
        · exact ih fa (some b) hfa hsa p hpm

lemma linkAux_withAnchor_first : ∀ (l : List Image) (a : Image) (sa : Option Image),
    (linkAux (some a) sa l).filter (fun p => p.2.isFirstAcquisition) =
      (l.filter (fun x => x.isFirstAcquisition)).map (fun x => (a, x)) := by
  intro l
  induction l with
  | nil => intro a sa; rfl
  | cons x t ih =>
    intro a sa
    by_cases hx : x.isFirstAcquisition = true
    · simp only [linkAux, hx, if_true]
      rw [List.filter_cons_of_pos (by simpa using hx),
        List.filter_cons_of_pos (by simpa using hx), List.map_cons, ih]
    · have hx' : x.isFirstAcquisition = false := by simpa using hx
      rw [List.filter_cons_of_neg (by simp [hx'])]
      cases sa with
      | none =>
        simp only [linkAux, hx', Bool.false_eq_true, if_false]
        exact ih a (some x)
      | some b =>
        simp only [linkAux, hx', Bool.false_eq_true, if_false]
        rw [List.filter_cons_of_neg (by simp [hx'])]
        exact ih a (some b)

lemma linkAux_start_first : ∀ (l : List Image) (sa : Option Image) (h : Image)
    (t2 : List Image), l.filter (fun x => x.isFirstAcquisition) = h :: t2 →
    (linkAux none sa l).filter (fun p => p.2.isFirstAcquisition) =
      t2.map (fun x => (h, x)) := by
  intro l
  induction l with
  | nil => intro sa h t2 hfil; simp at hfil
  | cons x t ih =>
    intro sa h t2 hfil
    by_cases hx : x.isFirstAcquisition = true
    · rw [List.filter_cons_of_pos (by simpa using hx)] at hfil
      injection hfil with hxh htail
      subst hxh
      simp only [linkAux, hx, if_true]
      rw [linkAux_withAnchor_first t x sa, htail]
    · have hx' : x.isFirstAcquisition = false := by simpa using hx
      rw [List.filter_cons_of_neg (by simp [hx'])] at hfil
      cases sa with
      | none =>
        simp only [linkAux, hx', Bool.false_eq_true, if_false]
        exact ih (some x) h t2 hfil
      | some b =>
        simp only [linkAux, hx', Bool.false_eq_true, if_false]
        rw [List.filter_cons_of_neg (by simp [hx'])]
        exact ih (some b) h t2 hfil

lemma linkAux_withAnchor_second : ∀ (l : List Image) (b : Image) (fa : Option Image),
    (linkAux fa (some b) l).filter (fun p => !p.2.isFirstAcquisition) =
      (l.filter (fun x => !x.isFirstAcquisition)).map (fun x => (b, x)) := by
  intro l
  induction l with
  | nil => intro b fa; rfl
  | cons x t ih =>
    intro b fa
    by_cases hx : x.isFirstAcquisition = true
    · rw [List.filter_cons_of_neg (by simp [hx])]
      cases fa with
      | none =>
        simp only [linkAux, hx, if_true]
        exact ih b (some x)
      | some a =>
        simp only [linkAux, hx, if_true]
        rw [List.filter_cons_of_neg (by simp [hx])]
        exact ih b (some a)
    · have hx' : x.isFirstAcquisition = false := by simpa using hx
      simp only [linkAux, hx', Bool.false_eq_true, if_false]
      rw [List.filter_cons_of_pos (by simp [hx']),
        List.filter_cons_of_pos (by simp [hx']), List.map_cons, ih]

lemma linkAux_start_second : ∀ (l : List Image) (fa : Option Image) (h : Image)
    (t2 : List Image), l.filter (fun x => !x.isFirstAcquisition) = h :: t2 →
    (linkAux fa none l).filter (fun p => !p.2.isFirstAcquisition) =
      t2.map (fun x => (h, x)) := by
  intro l
  induction l with
  | nil => intro fa h t2 hfil; simp at hfil
  | cons x t ih =>
    intro fa h t2 hfil
    by_cases hx : x.isFirstAcquisition = true
    · rw [List.filter_cons_of_neg (by simp [hx])] at hfil
      cases fa with
      | none =>
        simp only [linkAux, hx, if_true]
        exact ih (some x) h t2 hfil
      | some a =>
        simp only [linkAux, hx, if_true]
        rw [List.filter_cons_of_neg (by simp [hx])]
        exact ih (some a) h t2 hfil
    · have hx' : x.isFirstAcquisition = false := by simpa using hx
      rw [List.filter_cons_of_pos (by simp [hx'])] at hfil
      injection hfil with hxh htail
      subst hxh
      simp only [linkAux, hx', Bool.false_eq_true, if_false]
      rw [linkAux_withAnchor_second t x fa, htail]

/-- Claim C7: `linkAcquisitions` links layers only within the same
acquisition.  No link call pairs layers of different acquisitions, and for
each acquisition every image after the first one of that acquisition in
the ordered list is linked to that first image's layer. -/
theorem claim_C7 (l : List Image) :
    (∀ p ∈ linkAcquisitions l, p.1.isFirstAcquisition = p.2.isFirstAcquisition) ∧
    (∀ h t2, l.filter (fun x => x.isFirstAcquisition) = h :: t2 →
      (linkAcquisitions l).filter (fun p => p.2.isFirstAcquisition) =
        t2.map (fun x => (h, x))) ∧
    (∀ h t2, l.filter (fun x => !x.isFirstAcquisition) = h :: t2 →
      (linkAcquisitions l).filter (fun p => !p.2.isFirstAcquisition) =
        t2.map (fun x => (h, x))) := by
  refine ⟨?_, ?_, ?_⟩
  · intro p hp
    exact linkAux_cross l none none (fun a ha => by cases ha) (fun b hb => by cases hb) p hp
  · intro h t2 hf
    exact linkAux_start_first l none h t2 hf
  · intro h t2 hf
    exact linkAux_start_second l none h t2 hf

/-- Witness for claim C7 on a four-image list with two images per
acquisition. -/
theorem claim_C7_witness :
    ((Image.mk 0 "a.tif" true, Image.mk 2 "c.tif" true).1.isFirstAcquisition =
      (Image.mk 0 "a.tif" true, Image.mk 2 "c.tif" true).2.isFirstAcquisition) ∧
    (linkAcquisitions [Image.mk 0 "a.tif" true, Image.mk 1 "b.tif" false,
        Image.mk 2 "c.tif" true, Image.mk 3 "d.tif" false]).filter
        (fun p => p.2.isFirstAcquisition) =
      [(Image.mk 0 "a.tif" true, Image.mk 2 "c.tif" true)] ∧
    (linkAcquisitions [Image.mk 0 "a.tif" true, Image.mk 1 "b.tif" false,
        Image.mk 2 "c.tif" true, Image.mk 3 "d.tif" false]).filter
        (fun p => !p.2.isFirstAcquisition) =
      [(Image.mk 1 "b.tif" false, Image.mk 3 "d.tif" false)] :=
  ⟨(claim_C7 [Image.mk 0 "a.tif" true, Image.mk 1 "b.tif" false,
      Image.mk 2 "c.tif" true, Image.mk 3 "d.tif" false]).1
      (Image.mk 0 "a.tif" true, Image.mk 2 "c.tif" true) (by decide),
   (claim_C7 [Image.mk 0 "a.tif" true, Image.mk 1 "b.tif" false,
      Image.mk 2 "c.tif" true, Image.mk 3 "d.tif" false]).2.1
      (Image.mk 0 "a.tif" true) [Image.mk 2 "c.tif" true] (by decide),
   (claim_C7 [Image.mk 0 "a.tif" true, Image.mk 1 "b.tif" false,
      Image.mk 2 "c.tif" true, Image.mk 3 "d.tif" false]).2.2
      (Image.mk 1 "b.tif" false) [Image.mk 3 "d.tif" false] (by decide)⟩

/-! ### Claim C9: `groupPMaps` and the bottom MM layer -/

/-- Claim C9: `groupPMaps` requires at least one image classified MM.
With some MM present the unconditional `pMapsGroup.move(bottomMM, ...)` of
`StackMM.jsx` has a non-null target; with no MM present it is called with
a null target, while the latest version's guarded variant performs no move
at all. -/
theorem claim_C9 (l : List Image) :
    ((∃ im ∈ l, isMM im = true) → (groupPMapsMoveTarget l).isSome = true) ∧
    ((∀ im ∈ l, isMM im = false) →
      groupPMapsMoveTarget l = none ∧ groupPMapsMovesV2 l = []) := by
  constructor
  · rintro ⟨im, hm, hmm⟩
    rw [groupPMapsMoveTarget, bottomMM]
    simp only [List.find?_isSome]
    exact ⟨im, hm, hmm⟩
  · intro h
    have hb : bottomMM l = none := by
      rw [bottomMM]
      exact List.find?_eq_none.2 (fun x hx => by simp [h x hx])
    rw [groupPMapsMoveTarget, groupPMapsMovesV2, hb]
    exact ⟨rfl, rfl⟩

/-- Witness for claim C9: one list containing an MM, one containing only a
mask. -/
theorem claim_C9_witness :
    (groupPMapsMoveTarget [Image.mk 0 "mm1.tif" true]).isSome = true ∧
    (groupPMapsMoveTarget [Image.mk 0 "a_mask.tif" true] = none ∧
      groupPMapsMovesV2 [Image.mk 0 "a_mask.tif" true] = []) :=
  ⟨(claim_C9 [Image.mk 0 "mm1.tif" true]).1
      ⟨Image.mk 0 "mm1.tif" true, by decide, by decide⟩,
   (claim_C9 [Image.mk 0 "a_mask.tif" true]).2 (by decide)⟩

/-! ### Claim C10: layer visibility after mask cleanup -/

lemma mem_deleteBlack_visible (doc : List Layer) (t : Nat) :
    ∀ l ∈ deleteBlackPixelsFromLayer doc t, l.visible = true := by
  intro l hl
  simp only [deleteBlackPixelsFromLayer] at hl
  rcases List.mem_map.1 hl with ⟨x, _, rfl⟩
  rfl

lemma invert_keeps_visible {doc : List Layer} (t : Nat)
    (h : ∀ l ∈ doc, l.visible = true) : ∀ l ∈ invertLayer doc t, l.visible = true := by
  intro l hl
  rcases List.mem_map.1 (by simpa [invertLayer] using hl) with ⟨x, hx, rfl⟩
  split
  · exact h x hx
  · exact h x hx

lemma editMasks_visible : ∀ (masks : List Nat) (doc : List Layer), masks ≠ [] →
    ∀ l ∈ editMasks doc masks, l.visible = true := by
  intro masks
  induction masks with
  | nil => intro doc h; exact absurd rfl h
  | cons m rest ih =>
    intro doc _ l hl
    cases rest with
    | nil =>
      simp only [editMasks] at hl
      exact invert_keeps_visible m (mem_deleteBlack_visible doc m) l hl
    | cons m2 r2 =>
      simp only [editMasks] at hl
      exact ih (invertLayer (deleteBlackPixelsFromLayer doc m) m) (by simp) l hl

/-- Counterexample for claim C10 as stated: when `editMasks` is handed an
empty mask list it performs no visibility writes, so a layer that entered
hidden is still hidden after `editMasks` returns. -/
theorem claim_C10_counterexample :
    Layer.mk 0 false false ∈ editMasks [Layer.mk 0 false false] [] ∧
    (Layer.mk 0 false false).visible = false := by decide

/-- Claim C10 (amended): after every call to `deleteBlackPixelsFromLayer`
every top-level layer is visible, whatever its prior visibility; and the
same holds after `editMasks` returns whenever the mask list is
non-empty. -/
theorem claim_C10 :
    (∀ (doc : List Layer) (t : Nat), ∀ l ∈ deleteBlackPixelsFromLayer doc t,
      l.visible = true) ∧
    (∀ (doc : List Layer) (masks : List Nat), masks ≠ [] →
      ∀ l ∈ editMasks doc masks, l.visible = true) :=
  ⟨fun doc t => mem_deleteBlack_visible doc t,
   fun doc masks h => editMasks_visible masks doc h⟩

/-- Witness for claim C10: a document with one hidden layer, cleaned
through a one-element mask list, leaves every layer visible. -/
theorem claim_C10_witness :
    (Layer.mk 1 true false).visible = true ∧ (Layer.mk 0 true true).visible = true :=
  ⟨claim_C10.1 [Layer.mk 1 false false] 5 (Layer.mk 1 true false) (by decide),
   claim_C10.2 [Layer.mk 0 false false, Layer.mk 1 true false] [0] (by decide)
     (Layer.mk 0 true true) (by decide)⟩

/-! ### Claims C6 and C8: the file-selection dialog -/

lemma runDialog_some_nonempty (isFirst : Bool) : ∀ (evs : List DlgEvent)
    (imgs r : List Image), runDialog isFirst evs imgs = some (some r) → r ≠ [] := by
  intro evs
  induction evs with
  | nil => intro imgs r h; simp [runDialog] at h
  | cons e es ih =>
    intro imgs r h
    cases e with
    | addFiles files =>
      cases files with
      | none => exact ih _ r (by simpa only [runDialog] using h)
      | some fs => exact ih _ r (by simpa only [runDialog] using h)
    | removeClick sel =>
      cases sel with
      | none => exact ih _ r (by simpa only [runDialog] using h)
      | some i => exact ih _ r (by simpa only [runDialog] using h)
    | cancelClick => simp [runDialog] at h
    | doneClick =>
      simp only [runDialog] at h
      by_cases he : imgs.isEmpty
      · rw [if_pos he] at h
        exact ih _ r h
      · rw [if_neg he] at h
        have himgs : imgs = r := by
          injection h with h1
          injection h1
        subst himgs
        simpa using he

lemma runDialog_cancel_mem (isFirst : Bool) : ∀ (evs : List DlgEvent)
    (imgs : List Image), runDialog isFirst evs imgs = some none →
    DlgEvent.cancelClick ∈ evs := by
  intro evs
  induction evs with
  | nil => intro imgs h; simp [runDialog] at h
  | cons e es ih =>
    intro imgs h
    cases e with
    | addFiles files =>
      cases files with
      | none => exact List.mem_cons_of_mem _ (ih _ (by simpa only [runDialog] using h))
      | some fs => exact List.mem_cons_of_mem _ (ih _ (by simpa only [runDialog] using h))
    | removeClick sel =>
      cases sel with
      | none => exact List.mem_cons_of_mem _ (ih _ (by simpa only [runDialog] using h))
      | some i => exact List.mem_cons_of_mem _ (ih _ (by simpa only [runDialog] using h))
    | cancelClick => exact List.mem_cons_self _ _
    | doneClick =>
      simp only [runDialog] at h
      by_cases he : imgs.isEmpty
      · rw [if_pos he] at h
        exact List.mem_cons_of_mem _ (ih _ h)
      · rw [if_neg he] at h
        simp at h

lemma runDialog_cancel_first (isFirst : Bool) : ∀ (pre post : List DlgEvent)
    (imgs : List Image), DlgEvent.doneClick ∉ pre →
    runDialog isFirst (pre ++ DlgEvent.cancelClick :: post) imgs = some none := by
  intro pre
  induction pre with
  | nil => intro post imgs _; rfl
  | cons e pre2 ih =>
    intro post imgs hnd
    have hnd2 : DlgEvent.doneClick ∉ pre2 := fun hm => hnd (List.mem_cons_of_mem _ hm)
    rw [List.cons_append]
    cases e with
    | addFiles files =>
      cases files with
      | none => simpa only [runDialog] using ih post imgs hnd2
      | some fs => simpa only [runDialog] using ih post _ hnd2
    | removeClick sel =>
      cases sel with
      | none => simpa only [runDialog] using ih post imgs hnd2
      | some i => simpa only [runDialog] using ih post _ hnd2
    | cancelClick => rfl
    | doneClick => exact absurd (List.mem_cons_self _ _) hnd

/-- Claim C6: `collectImages` of the latest version returns `null` exactly
when the user presses Cancel Script (pressing it closes the dialog with a
`null` result, and a `null` result can only arise from pressing it); and
when either acquisition's `collectImages` is `null`, `main` exits with
only an alert, before any document is created or any layer mutated. -/
theorem claim_C6 :
    (∀ (isFirst : Bool) (pre post : List DlgEvent), DlgEvent.doneClick ∉ pre →
      collectImages isFirst (pre ++ DlgEvent.cancelClick :: post) = some none) ∧
    (∀ (isFirst : Bool) (evs : List DlgEvent) (r : Option (List Image)),
      collectImages isFirst evs = some r → r = none → DlgEvent.cancelClick ∈ evs) ∧
    (∀ first second : Option (List Image), first = none ∨ second = none →
      mainEffects first second = [HostEffect.alertCancelled]) := by
  refine ⟨?_, ?_, ?_⟩
  · intro isFirst pre post h
    exact runDialog_cancel_first isFirst pre post [] h
  · intro isFirst evs r h hr
    subst hr
    exact runDialog_cancel_mem isFirst evs [] h
  · rintro first second (rfl | rfl)
    · rfl
    · cases first <;> rfl

/-- Witness for claim C6: a session that presses Cancel Script at once. -/
theorem claim_C6_witness :
    collectImages true ([] ++ DlgEvent.cancelClick :: []) = some none ∧
    DlgEvent.cancelClick ∈ [DlgEvent.cancelClick] ∧
    mainEffects none (some []) = [HostEffect.alertCancelled] :=
  ⟨claim_C6.1 true [] [] (by decide),
   claim_C6.2.1 true [DlgEvent.cancelClick] none rfl rfl,
   claim_C6.2.2 none (some []) (Or.inl rfl)⟩

/-- Claim C8: whenever both acquisitions' `collectImages` return non-null
lists, their concatenation is non-empty (the Done button refuses to close
the dialog with zero images), so the `images[0]` access in `configureDoc`
is defined. -/
theorem claim_C8 (evs1 evs2 : List DlgEvent) (l1 l2 : List Image)
    (h1 : collectImages true evs1 = some (some l1))
    (h2 : collectImages false evs2 = some (some l2)) :
    l1 ≠ [] ∧ l2 ≠ [] ∧ l1 ++ l2 ≠ [] ∧ (l1 ++ l2).head?.isSome = true := by
  have hne : l1 ≠ [] := runDialog_some_nonempty true evs1 [] l1 h1
  have hne2 : l2 ≠ [] := runDialog_some_nonempty false evs2 [] l2 h2
  refine ⟨hne, hne2, ?_, ?_⟩
  · intro hcontra
    exact hne (List.append_eq_nil.1 hcontra).1
  · cases l1 with
    | nil => exact absurd rfl hne
    | cons a t => rfl

/-- Witness for claim C8: both dialogs add one valid image file and press
Done. -/
theorem claim_C8_witness :
    [Image.mk 0 "a_mask.tif" true] ≠ [] ∧
    [Image.mk 1 "b_pmap.png" false] ≠ [] ∧
    [Image.mk 0 "a_mask.tif" true] ++ [Image.mk 1 "b_pmap.png" false] ≠ [] ∧
    ([Image.mk 0 "a_mask.tif" true] ++ [Image.mk 1 "b_pmap.png" false]).head?.isSome
      = true :=
  claim_C8
    [DlgEvent.addFiles (some [FileRef.mk 0 "a_mask.tif"]), DlgEvent.doneClick]
    [DlgEvent.addFiles (some [FileRef.mk 1 "b_pmap.png"]), DlgEvent.doneClick]
    [Image.mk 0 "a_mask.tif" true] [Image.mk 1 "b_pmap.png" false]
    (by decide) (by decide)

end StackMM
